import Mathlib

/-!
Verification development for the `tube` repository's cipher/parser core.

The Python sources are shallowly embedded: Python lists become `List`,
Python strings become `String`/`List Char`, Python `int` becomes `Int`
(with Python's `%` on a positive modulus embedded as `Int.emod`), and
raising code returns `Option`/`Except`.  Functions keep their source
names (`swap`, `splice`, `find_object_from_startpoint`, ...).
-/

namespace Tube

/-- Error model for the library's exceptions (`exceptions.py`):
`regexMatch caller pattern` embeds `RegexMatchError(caller, pattern)`;
`valueError` embeds the `ValueError` raised by a failed tuple unpacking;
`indexError` embeds a list `IndexError`. -/
inductive CipherErr : Type where
  | regexMatch (caller : String) (pattern : String)
  | valueError
  | indexError
deriving DecidableEq, Repr

/-! ## cipher.py: the three signature transform operations -/

/-- `cipher.reverse(arr, _)`: `return arr[::-1]`.  The second argument is
unused by the source; transform plans always pass a numeric argument. -/
def reverse {α : Type} (arr : List α) (_b : Int) : List α :=
  arr.reverse

/-- `cipher.splice(arr, b)`: `return arr[b:]`.  Python slicing from a
negative start counts from the end and clamps at 0. -/
def splice {α : Type} (arr : List α) (b : Int) : List α :=
  arr.drop (if b < 0 then ((arr.length : Int) + b).toNat else b.toNat)

/-- `cipher.swap(arr, b)`:
`r = b % len(arr); return list(chain([arr[r]], arr[1:r], [arr[0]], arr[r+1:]))`.
`Int.emod` agrees with Python `%` for the positive modulus `len(arr)`;
`[arr[r]]` is `(arr.drop r).take 1` (for `r < len(arr)`), `arr[1:r]` is
`(arr.drop 1).take (r-1)`, `[arr[0]]` is `arr.take 1` (for `arr ≠ []`).
On `arr = []` the source raises `ZeroDivisionError`; all claims assume a
non-empty list. -/
def swap {α : Type} (arr : List α) (b : Int) : List α :=
  let r := (b % (arr.length : Int)).toNat
  (arr.drop r).take 1 ++ (arr.drop 1).take (r - 1) ++ arr.take 1 ++ arr.drop (r + 1)

/-! ## cipher.py: the throttling array helpers -/

/-- `cipher.throttling_mod_func(d, e)`: `(e % len(d) + len(d)) % len(d)`. -/
def throttling_mod_func {α : Type} (d : List α) (e : Int) : Int :=
  (e % (d.length : Int) + (d.length : Int)) % (d.length : Int)

/-- `cipher.throttling_unshift(d, e)`: rotates `d` right by
`throttling_mod_func d e` positions, in place (the source builds
`d[-e:] + d[:-e]`, clears `d` and appends the rotated elements; the
embedding returns the post-state of `d`).  For `e = 0`, Python's
`d[-0:]` is all of `d` and `d[:-0]` is empty, so the list is unchanged. -/
def throttling_unshift {α : Type} (d : List α) (e : Int) : List α :=
  let r := (throttling_mod_func d e).toNat
  if r = 0 then d
  else d.drop (d.length - r) ++ d.take (d.length - r)

/-- `cipher.throttling_reverse(arr)`: makes a reversed copy and writes it
back element by element (`arr[i] = reverse_copy[i]`); the embedding
returns the post-state of `arr`. -/
def throttling_reverse {α : Type} (arr : List α) : List α :=
  let reverse_copy := arr.reverse
  (List.range reverse_copy.length).foldl
    (fun a i =>
      match reverse_copy.get? i with
      | some x => a.set i x
      | none => a)
    arr

/-- `cipher.throttling_push(d, e)`: `d.append(e)`; post-state of `d`. -/
def throttling_push {α : Type} (d : List α) (e : α) : List α :=
  d ++ [e]

/-- `cipher.throttling_swap(d, e)`: `e = throttling_mod_func(d, e);
f = d[0]; d[0] = d[e]; d[e] = f`; post-state of `d`.  On an empty list
the source raises before any write. -/
def throttling_swap {α : Type} (d : List α) (e : Int) : List α :=
  let r := (throttling_mod_func d e).toNat
  match d.get? 0, d.get? r with
  | some f, some v => (d.set 0 v).set r f
  | _, _ => d

/-! ## State-passing view of the signature transforms.

The bodies of `reverse`, `splice` and `swap` consist of a single `return`
of a slicing/chaining expression; no statement assigns to `arr` or to an
index of `arr`, so the state-passing embedding of each body leaves the
argument list untouched.  `...Post` is the post-state of the `arr`
argument after the call. -/

/-- Post-state of `arr` after `cipher.reverse(arr, b)` (its body performs
no assignment to `arr`). -/
def reversePost {α : Type} (arr : List α) (_b : Int) : List α := arr

/-- Post-state of `arr` after `cipher.splice(arr, b)` (no assignment to
`arr` in the body). -/
def splicePost {α : Type} (arr : List α) (_b : Int) : List α := arr

/-- Post-state of `arr` after `cipher.swap(arr, b)` (no assignment to
`arr` in the body). -/
def swapPost {α : Type} (arr : List α) (_b : Int) : List α := arr

/-! ## cipher.py: `throttling_cipher_function` -/

/-- The 64-symbol alphabet `h` of `throttling_cipher_function`. -/
def alphabet_h : List Char :=
  "ABCDEFGHIJKLMNOPQRSTUVWXYZabcdefghijklmnopqrstuvwxyz0123456789-_".toList

/-- The loop of `cipher.throttling_cipher_function`: iterates over
`copied_list` (the copy of the input) with position `m`, key stream
`this` (initially `e`, extended by each output), counter `f` (initially
96, decremented each step), writing `d[m] = h[bracket_val]`.
`List.indexOf` embeds Python `list.index` (the claims assume membership,
under which the two agree); `getD`'s default is never reached when
`m < len(this)`, which holds whenever `e` is non-empty. -/
def cipherLoop : List Char → Nat → List Char → Int → List Char → List Char
  | [], _, _, _, d => d
  | l :: rest, m, this, f, d =>
    let bracket_val :=
      (((alphabet_h.indexOf l : Int) - (alphabet_h.indexOf (this.getD m 'A') : Int)
          + (m : Int) - 32 + f) % (alphabet_h.length : Int)).toNat
    let outc := alphabet_h.getD bracket_val 'A'
    cipherLoop rest (m + 1) (this ++ [outc]) (f - 1) (d.set m outc)

/-- `cipher.throttling_cipher_function(d, e)`: `f = 96`, `this = list(e)`,
`copied_list = d.copy()`, then the loop; the embedding returns the
post-state of `d`. -/
def throttling_cipher_function (d : List Char) (e : String) : List Char :=
  cipherLoop d 0 e.toList 96 d

/-- The substitution-cipher step as the specification states it: position
`m` holding `l` becomes `H[(index_of(H,l) - index_of(H,ks[m]) + m - 32 + f) mod 64]`
with `f = 96 - m`, and the key stream `ks` (initially the key `e`) is
extended by each output symbol. -/
def subCipherSpec : List Char → List Char → Nat → List Char
  | [], _, _ => []
  | l :: rest, ks, m =>
    let c := alphabet_h.getD
      ((((alphabet_h.indexOf l : Int) - (alphabet_h.indexOf (ks.getD m 'A') : Int)
          + (m : Int) - 32 + (96 - (m : Int))) % 64)).toNat 'A'
    c :: subCipherSpec rest (ks ++ [c]) (m + 1)

/-! ## parser.py: `find_object_from_startpoint` -/

/-- The `context_closers` dictionary of `parser.find_object_from_startpoint`.
The stack only ever holds the three opener characters, so the catch-all
case is unreachable. -/
def contextCloser : Char → Char
  | '\x7b' => '\x7d'
  | '[' => ']'
  | '\x22' => '\x22'
  | _ => ' '

/-- The scanning loop of `parser.find_object_from_startpoint`, returning
the final value of `i`.  First argument: the characters from index `i`
on; second: the stack (top first); third: `i`.  The loop breaks when the
stack empties, ends when the input is exhausted, pops on a closer, skips
one extra character after a backslash inside a string (`i += 2`), and
pushes openers outside strings. -/
def findEnd : List Char → List Char → Nat → Nat
  | _, [], i => i
  | [], _ :: _, i => i
  | c :: rest, top :: stk, i =>
    if c = contextCloser top then findEnd rest stk (i + 1)
    else if top = '\x22' then
      if c = '\\' then
        -- `i += 2` skips the escaped character; if the backslash was the
        -- last character, the loop condition `i < len(html)` then fails
        -- with `i = len(html) + 1` and the final value is that `i`.
        match rest with
        | [] => i + 2
        | _ :: rest2 => findEnd rest2 (top :: stk) (i + 2)
      else findEnd rest (top :: stk) (i + 1)
    else if c = '\x7b' ∨ c = '[' ∨ c = '\x22' then findEnd rest (c :: top :: stk) (i + 1)
    else findEnd rest (top :: stk) (i + 1)

/-- `parser.find_object_from_startpoint(html, start_point)`: slices
`html[start_point:]`, requires the first character to be `{` or `[`
(otherwise raises `HTMLParseError`, embedded as `none`; an empty slice
raises `IndexError`, also `none`), seeds the stack with it, runs the scan
from `i = 1` and returns `html[:i]`. -/
def find_object_from_startpoint (html : String) (start_point : Nat) : Option String :=
  match html.toList.drop start_point with
  | [] => none
  | c :: rest =>
    if c = '\x7b' ∨ c = '[' then
      some (String.mk ((c :: rest).take (findEnd rest [c] 1)))
    else none

/-- Mirror of `findEnd` recording whether the scan ran off the end of the
text without the stack ever emptying (`true`), or broke because the stack
emptied (`false`). -/
def neverRebalances : List Char → List Char → Bool
  | _, [] => false
  | [], _ :: _ => true
  | c :: rest, top :: stk =>
    if c = contextCloser top then neverRebalances rest stk
    else if top = '\x22' then
      if c = '\\' then
        match rest with
        | [] => true
        | _ :: rest2 => neverRebalances rest2 (top :: stk)
      else neverRebalances rest (top :: stk)
    else if c = '\x7b' ∨ c = '[' ∨ c = '\x22' then neverRebalances rest (c :: top :: stk)
    else neverRebalances rest (top :: stk)

/-! ## Character classes of the Python regexes (ASCII inputs) -/

/-- Python regex `\s` (ASCII range), also the set stripped by `str.strip()`. -/
def isWs (c : Char) : Bool :=
  c == ' ' || c == '\t' || c == '\n' || c == '\r' || c == '\x0b' || c == '\x0c'

/-- The class `[a-zA-Z0-9$]` used for captured function names. -/
def isSigChar (c : Char) : Bool :=
  c.isAlphanum || c == '$'

/-- Python regex `\w` (ASCII range). -/
def isWordChar (c : Char) : Bool :=
  c.isAlphanum || c == '_'

/-- The class `[a-z]`. -/
def isLowerAZ (c : Char) : Bool :=
  'a' ≤ c && c ≤ 'z'

/-- The class `[A-Za-z]`. -/
def isAlphaAZ (c : Char) : Bool :=
  ('a' ≤ c && c ≤ 'z') || ('A' ≤ c && c ≤ 'Z')

/-! ## Deterministic matcher combinators.

Each of the embedded patterns is deterministic: every starred/`+` class
is followed by a literal outside the class, so Python's greedy matching
never backtracks into it, and maximal munch is faithful.  A matcher
consumes from a `List Char` and returns the rest (`none` = no match at
this position). -/

/-- Consume an exact literal. -/
def lit : List Char → List Char → Option (List Char)
  | [], l => some l
  | _ :: _, [] => none
  | c :: cs, x :: xs => if x = c then lit cs xs else none

/-- Consume one character of a class. -/
def one (p : Char → Bool) : List Char → Option (List Char)
  | [] => none
  | c :: t => if p c then some t else none

/-- Consume one character of a class, returning it. -/
def oneC (p : Char → Bool) : List Char → Option (Char × List Char)
  | [] => none
  | c :: t => if p c then some (c, t) else none

/-- `\s*`: greedily consume whitespace (always succeeds). -/
def ws (l : List Char) : List Char :=
  l.dropWhile isWs

/-- `class+` (greedy): consume a maximal non-empty run, returning it. -/
def munch1 (p : Char → Bool) (l : List Char) : Option (List Char × List Char) :=
  match l.takeWhile p with
  | [] => none
  | g => some (g, l.dropWhile p)

/-- `class*` (greedy): consume a maximal (possibly empty) run. -/
def munch0 (p : Char → Bool) (l : List Char) : List Char :=
  l.dropWhile p

/-- `\b` immediately before a word character: holds at the start of the
text or after a non-word character. -/
def wb : Option Char → Bool
  | none => true
  | some c => !(isWordChar c)

/-- `re.search` for a matcher that inspects the previous character (for
`\b`): try every start position from the left, first hit wins. -/
def searchFrom {β : Type} (m : Option Char → List Char → Option β) :
    Option Char → List Char → Option β
  | prev, [] => m prev []
  | prev, c :: t =>
    match m prev (c :: t) with
    | some s => some s
    | none => searchFrom m (some c) t

/-- `re.search` for a matcher that needs no look-behind. -/
def searchList {β : Type} (m : List Char → Option β) : List Char → Option β
  | [] => m []
  | c :: t =>
    match m (c :: t) with
    | some r => some r
    | none => searchList m t

/-- Lazy `.*?` (no DOTALL: never consumes a newline): try the rest of the
pattern at the current position first, then advance one character. -/
def lazyDots {β : Type} (m : List Char → Option β) : List Char → Option β
  | [] => m []
  | c :: t =>
    match m (c :: t) with
    | some g => some g
    | none => if c = '\n' then none else lazyDots m t

/-! ## Fixed-length token patterns (for `map_functions`).

The four body patterns of `cipher.map_functions` contain no repetition
operators, only literals, `\w`, `\s` and `.`, so each is a fixed token
sequence. -/

/-- One fixed-length regex token: literal, `\w`, `\s`, or `.` (which does
not match a newline without DOTALL). -/
inductive RTok : Type where
  | lc (c : Char)
  | wc
  | sc
  | ac
deriving DecidableEq, Repr

/-- Does a character match a token? -/
def matchRTok : RTok → Char → Bool
  | .lc c, x => x == c
  | .wc, x => isWordChar x
  | .sc, x => isWs x
  | .ac, x => x != '\n'

/-- Match a fixed token sequence at the start of the text. -/
def matchRToks : List RTok → List Char → Bool
  | [], _ => true
  | _ :: _, [] => false
  | t :: ts, c :: l => matchRTok t c && matchRToks ts l

/-- `re.search` for a fixed token sequence. -/
def searchRToks (ts : List RTok) : List Char → Bool
  | [] => matchRToks ts []
  | c :: t => matchRToks ts (c :: t) || searchRToks ts t

/-- Literal characters of a string as tokens. -/
def lits (s : String) : List RTok :=
  s.toList.map RTok.lc

/-! ## cipher.py: `map_functions`, `get_transform_object`, `get_transform_map` -/

/-- The three canonical transform operations a body text resolves to. -/
inductive TransformFn : Type where
  | reverse
  | splice
  | swap
deriving DecidableEq, Repr

/-- Pattern `{\w\.reverse\(\)}`. -/
def mapPat1 : List RTok :=
  [RTok.lc '\x7b', RTok.wc] ++ lits ".reverse()" ++ [RTok.lc '\x7d']

/-- Pattern `{\w\.splice\(0,\w\)}`. -/
def mapPat2 : List RTok :=
  [RTok.lc '\x7b', RTok.wc] ++ lits ".splice(0," ++ [RTok.wc, RTok.lc ')', RTok.lc '\x7d']

/-- Pattern `{var\s\w=\w\[0\];\w\[0\]=\w\[\w\%\w.length\];\w\[\w\]=\w}`
(the `.` before `length` is an unescaped any-character). -/
def mapPat3 : List RTok :=
  [RTok.lc '\x7b'] ++ lits "var" ++ [RTok.sc, RTok.wc, RTok.lc '=', RTok.wc]
    ++ lits "[0];" ++ [RTok.wc] ++ lits "[0]=" ++ [RTok.wc, RTok.lc '[']
    ++ [RTok.wc, RTok.lc '%', RTok.wc, RTok.ac] ++ lits "length];"
    ++ [RTok.wc, RTok.lc '[', RTok.wc, RTok.lc ']', RTok.lc '=', RTok.wc, RTok.lc '\x7d']

/-- The fourth `map_functions` pattern.  In the source it is a raw string
containing a backslash-newline line continuation followed by 16 spaces,
so the regex requires a literal newline and 16 literal spaces between
`\w.` and `length`. -/
def mapPat4 : List RTok :=
  [RTok.lc '\x7b'] ++ lits "var" ++ [RTok.sc, RTok.wc, RTok.lc '=', RTok.wc]
    ++ lits "[0];" ++ [RTok.wc] ++ lits "[0]=" ++ [RTok.wc, RTok.lc '[']
    ++ [RTok.wc, RTok.lc '%', RTok.wc, RTok.ac, RTok.lc '\n']
    ++ lits "                " ++ lits "length];"
    ++ [RTok.wc, RTok.lc '[', RTok.wc, RTok.lc '%', RTok.wc, RTok.ac]
    ++ lits "length]" ++ [RTok.lc '=', RTok.wc, RTok.lc '\x7d']

/-- `cipher.map_functions(js_func)`: try the four body patterns in order,
returning the corresponding operation, else
`RegexMatchError("map_functions", "multiple")`. -/
def map_functions (js_func : String) : Except CipherErr TransformFn :=
  if searchRToks mapPat1 js_func.toList then .ok .reverse
  else if searchRToks mapPat2 js_func.toList then .ok .splice
  else if searchRToks mapPat3 js_func.toList then .ok .swap
  else if searchRToks mapPat4 js_func.toList then .ok .swap
  else .error (.regexMatch "map_functions" "multiple")

/-- Characters before the first occurrence of the two-character substring
`};` (`none` when it does not occur): the non-greedy `(.*?)};` of
`get_transform_object`'s pattern. -/
def takeUntilCloseSemi : List Char → Option (List Char)
  | [] => none
  | '\x7d' :: ';' :: _ => some []
  | c :: t => (takeUntilCloseSemi t).map (c :: ·)

/-- First match of `var <var>={(.*?)};` (DOTALL): leftmost position where
the literal `var <var>={` occurs and a `};` follows; the group is the
text between.  (If no `};` follows the first literal occurrence, none
follows a later one either, matching `re.search`'s leftmost semantics.) -/
def searchVarObj (pref : List Char) : List Char → Option (List Char)
  | [] => none
  | c :: t =>
    match lit pref (c :: t) with
    | some rest =>
      match takeUntilCloseSemi rest with
      | some g => some g
      | none => searchVarObj pref t
    | none => searchVarObj pref t

/-- Python `split(", ")` (two-character separator, non-overlapping,
left to right, empty pieces kept). -/
def splitCommaSpace : List Char → List (List Char)
  | [] => [[]]
  | ',' :: ' ' :: t => [] :: splitCommaSpace t
  | c :: t =>
    match splitCommaSpace t with
    | [] => [[c]]
    | h :: r => (c :: h) :: r

/-- `cipher.get_transform_object(js, var)`: search
`var <var>={(.*?)};` with DOTALL, replace newlines by spaces in the
group, split on `", "`; on no match raise
`RegexMatchError("get_transform_object", pattern)`. -/
def get_transform_object (js var : String) : Except CipherErr (List String) :=
  match searchVarObj ("var " ++ var ++ "=\x7b").toList js.toList with
  | none => .error (.regexMatch "get_transform_object" ("var " ++ var ++ "=\x7b(.*?)\x7d;"))
  | some g =>
    .ok ((splitCommaSpace (g.map (fun c => if c = '\n' then ' ' else c))).map
      (fun l => String.mk l))

/-- Python `split(":", 1)` unpacked into exactly two pieces (`none` when
there is no colon, where the source's unpacking raises `ValueError`). -/
def splitColon1 : List Char → Option (List Char × List Char)
  | [] => none
  | c :: t =>
    if c = ':' then some ([], t)
    else (splitColon1 t).map (fun p => (c :: p.1, p.2))

/-- Python `dict` insertion: overwrite in place if the key exists,
otherwise append (insertion order preserved). -/
def dictInsert (k : String) (v : TransformFn) :
    List (String × TransformFn) → List (String × TransformFn)
  | [] => [(k, v)]
  | (k', v') :: rest =>
    if k' = k then (k', v) :: rest else (k', v') :: dictInsert k v rest

/-- The loop of `cipher.get_transform_map`: for each entry,
`name, function = obj.split(":", 1)`, then `map_functions(function)`,
accumulating `mapper[name] = fn`. -/
def buildMap : List String → List (String × TransformFn) →
    Except CipherErr (List (String × TransformFn))
  | [], acc => .ok acc
  | obj :: rest, acc =>
    match splitColon1 obj.toList with
    | none => .error .valueError
    | some (name, fnText) =>
      match map_functions (String.mk fnText) with
      | .error e => .error e
      | .ok fn => buildMap rest (dictInsert (String.mk name) fn acc)

/-- `cipher.get_transform_map(js, var)`: the TransformCatalog builder. -/
def get_transform_map (js var : String) :
    Except CipherErr (List (String × TransformFn)) :=
  match get_transform_object js var with
  | .error e => .error e
  | .ok objs => buildMap objs []

/-! ## cipher.py: `get_throttling_function_name` -/

/-- The prefix
`a\.[a-zA-Z]\s*&&\s*\([a-z]\s*=\s*a\.get\("n"\)\)\s*&&\s*\([a-z]\s*=\s*`
of the throttling pattern. -/
def matchThrottlePrefix (l : List Char) : Option (List Char) := do
  let l ← lit "a.".toList l
  let l ← one isAlphaAZ l
  let l := ws l
  let l ← lit "&&".toList l
  let l := ws l
  let l ← lit "(".toList l
  let l ← one isLowerAZ l
  let l := ws l
  let l ← lit "=".toList l
  let l := ws l
  let l ← lit "a.get(\"n\"))".toList l
  let l := ws l
  let l ← lit "&&".toList l
  let l := ws l
  let l ← lit "(".toList l
  let l ← one isLowerAZ l
  let l := ws l
  let l ← lit "=".toList l
  pure (ws l)

/-- Match, at the current position, the single throttling pattern
`a\.[a-zA-Z]\s*&&\s*\([a-z]\s*=\s*a\.get\("n"\)\)\s*&&\s*\([a-z]\s*=\s*([a-zA-Z0-9$]+)(\[\d+\])?\([a-z]\)`,
returning (group 1, optional group 2 including its brackets). -/
def matchThrottleAt (l : List Char) : Option (String × Option String) := do
  let l ← matchThrottlePrefix l
  let (g1, l) ← munch1 isSigChar l
  match l with
  | '[' :: t => do
    -- the optional `(\[\d+\])?`: a '[' here can only belong to the group
    let (ds, t) ← munch1 Char.isDigit t
    let t ← lit "]".toList t
    -- the trailing `\([a-z]\)`
    let t ← lit "(".toList t
    let t ← one isLowerAZ t
    let _ ← lit ")".toList t
    pure (String.mk g1, some (String.mk ('[' :: ds ++ [']'])))
  | _ => do
    let t ← lit "(".toList l
    let t ← one isLowerAZ t
    let _ ← lit ")".toList t
    pure (String.mk g1, none)

/-- Python `strip("[]")`: drop `[`/`]` characters from both ends. -/
def stripSquare (l : List Char) : List Char :=
  ((l.dropWhile (fun c => c == '[' || c == ']')).reverse.dropWhile
    (fun c => c == '[' || c == ']')).reverse

/-- Python `strip()`: drop whitespace from both ends. -/
def pyStrip (l : List Char) : List Char :=
  ((l.dropWhile isWs).reverse.dropWhile isWs).reverse

/-- Python `split(",")` on a character list. -/
def splitComma : List Char → List (List Char)
  | [] => [[]]
  | ',' :: t => [] :: splitComma t
  | c :: t =>
    match splitComma t with
    | [] => [[c]]
    | h :: r => (c :: h) :: r

/-- `int(...)` on a digit string. -/
def natOfDigits (l : List Char) : Nat :=
  l.foldl (fun n c => n * 10 + (c.toNat - 48)) 0

/-- The non-greedy `.+?` of `(\[.+?\]);` after its first (unconditionally
consumed) character: scan for the first following `];`; `.` does not
match a newline. -/
def innerAfterOne : List Char → Option (List Char)
  | [] => none
  | ']' :: ';' :: _ => some []
  | c :: t =>
    if c = '\n' then none else (innerAfterOne t).map (c :: ·)

/-- Match, at the current position, `var <name>\s*=\s*(\[.+?\]);`
(no DOTALL), returning group 1 (brackets included). -/
def matchArrayAt (name : List Char) (l : List Char) : Option (List Char) := do
  let l ← lit ("var ".toList ++ name) l
  let l := ws l
  let l ← lit "=".toList l
  let l := ws l
  let l ← lit "[".toList l
  match l with
  | [] => none
  | c :: t =>
    if c = '\n' then none
    else (innerAfterOne t).map (fun inner => '[' :: c :: inner ++ [']'])

/-- `cipher.get_throttling_function_name(js)`.  The guard
`len(function_match.groups()) == 1` in the source can never hold (the
single pattern defines two groups), so on a match the code always takes
the `idx` path: if group 2 is absent it falls through to
`raise RegexMatchError(caller, "multiple")`; if present it strips the
brackets, looks for the array literal `var <name>\s*=\s*(\[.+?\]);`
(falling through to the same raise when absent), splits it on commas,
strips each element and indexes (an out-of-range index raises
`IndexError`). -/
def get_throttling_function_name (js : String) : Except CipherErr String :=
  match searchList matchThrottleAt js.toList with
  | none => .error (.regexMatch "get_throttling_function_name" "multiple")
  | some (_, none) => .error (.regexMatch "get_throttling_function_name" "multiple")
  | some (name, some idx) =>
    let idxDigits := stripSquare idx.toList
    match searchList (matchArrayAt name.toList) js.toList with
    | none => .error (.regexMatch "get_throttling_function_name" "multiple")
    | some arrGroup =>
      let arr := (splitComma (stripSquare arrGroup)).map pyStrip
      match arr.get? (natOfDigits idxDigits) with
      | some x => .ok (String.mk x)
      | none => .error .indexError

/-! ## cipher.py: `get_initial_function_name`

The twelve patterns of `function_patterns`, embedded in source order as
deterministic matchers (the last two pattern strings in the source are
identical). -/

/-- `\b` between the previous character and the head of the rest: holds
when exactly one side is a word character. -/
def wbAt (prev : Option Char) (l : List Char) : Bool :=
  (match prev with | none => false | some c => isWordChar c)
    != (match l.head? with | none => false | some c => isWordChar c)

/-- Shared segment `\.set\([^,]+\s*,\s*` (the final `\s*` included). -/
def setCommaTail (l : List Char) : Option (List Char) := do
  let l ← lit ".set(".toList l
  let (_, l) ← munch1 (fun c => c != ',') l
  let l := ws l
  let l ← lit ",".toList l
  pure (ws l)

/-- Shared segment `(?P<sig>[a-zA-Z0-9$]+)\(`, returning the group. -/
def sigGroupParen (l : List Char) : Option String := do
  let (g, l) ← munch1 isSigChar l
  let _ ← lit "(".toList l
  pure (String.mk g)

/-- Shared segment `encodeURIComponent\s*\(\s*(?P<sig>[a-zA-Z0-9$]+)\(`. -/
def encodeURITail (l : List Char) : Option String := do
  let l ← lit "encodeURIComponent".toList l
  let l := ws l
  let l ← lit "(".toList l
  sigGroupParen (ws l)

/-- Pattern 1:
`\b[cs]\s*&&\s*[adf]\.set\([^,]+\s*,\s*encodeURIComponent\s*\(\s*(?P<sig>[a-zA-Z0-9$]+)\(`. -/
def matchP1 (prev : Option Char) (l : List Char) : Option String :=
  if wbAt prev l then
    (do
      let l ← one (fun c => c == 'c' || c == 's') l
      let l := ws l
      let l ← lit "&&".toList l
      let l := ws l
      let l ← one (fun c => c == 'a' || c == 'd' || c == 'f') l
      let l ← setCommaTail l
      encodeURITail l)
  else none

/-- Pattern 2:
`\b[a-zA-Z0-9]+\s*&&\s*[a-zA-Z0-9]+\.set\([^,]+\s*,\s*encodeURIComponent\s*\(\s*(?P<sig>[a-zA-Z0-9$]+)\(`. -/
def matchP2 (prev : Option Char) (l : List Char) : Option String :=
  if wbAt prev l then
    (do
      let (_, l) ← munch1 Char.isAlphanum l
      let l := ws l
      let l ← lit "&&".toList l
      let l := ws l
      let (_, l) ← munch1 Char.isAlphanum l
      let l ← setCommaTail l
      encodeURITail l)
  else none

/-- Shared segment `\s*=\s*function\(\s*a\s*\)\s*{\s*` of patterns 3/4. -/
def splitFnTail1 (l : List Char) : Option (List Char) := do
  let l := ws l
  let l ← lit "=".toList l
  let l := ws l
  let l ← lit "function(".toList l
  let l := ws l
  let l ← lit "a".toList l
  let l := ws l
  let l ← lit ")".toList l
  let l := ws l
  let l ← lit "\x7b".toList l
  pure (ws l)

/-- Shared segment `a\s*=\s*a\.split\(\s*""\s*\)` of patterns 3/4. -/
def splitFnTail2 (l : List Char) : Option Unit := do
  let l ← lit "a".toList l
  let l := ws l
  let l ← lit "=".toList l
  let l := ws l
  let l ← lit "a.split(".toList l
  let l := ws l
  let l ← lit "\x22\x22".toList l
  let l := ws l
  let _ ← lit ")".toList l
  pure ()

/-- `\s*=\s*function\(\s*a\s*\)\s*{\s*a\s*=\s*a\.split\(\s*""\s*\)`. -/
def splitFnTail (l : List Char) : Option Unit := do
  let l ← splitFnTail1 l
  splitFnTail2 l

/-- The group-and-tail of pattern 3: exactly two `[a-zA-Z0-9$]` characters
then the `function`/`split` tail. -/
def matchP3core (l : List Char) : Option String := do
  let (c1, l) ← oneC isSigChar l
  let (c2, l) ← oneC isSigChar l
  let _ ← splitFnTail l
  pure (String.mk [c1, c2])

/-- Pattern 3:
`(?:\b|[^a-zA-Z0-9$])(?P<sig>[a-zA-Z0-9$]{2})\s*=\s*function\(\s*a\s*\)\s*{\s*a\s*=\s*a\.split\(\s*""\s*\)`;
the alternation tries the zero-width `\b` first, then consumes one
non-`[a-zA-Z0-9$]` character. -/
def matchP3 (prev : Option Char) (l : List Char) : Option String :=
  match (if wbAt prev l then matchP3core l else none) with
  | some g => some g
  | none =>
    match one (fun c => !(isSigChar c)) l with
    | some t => matchP3core t
    | none => none

/-- Pattern 4:
`(?P<sig>[a-zA-Z0-9$]+)\s*=\s*function\(\s*a\s*\)\s*{\s*a\s*=\s*a\.split\(\s*""\s*\)`. -/
def matchP4 (_prev : Option Char) (l : List Char) : Option String := do
  let (g, l) ← munch1 isSigChar l
  let _ ← splitFnTail l
  pure (String.mk g)

/-- Pattern 5: `(["\'])signature\1\s*,\s*(?P<sig>[a-zA-Z0-9$]+)\(`.
The source returns `group(1)`, which for this pattern is the quote
character, not the named group. -/
def matchP5 (_prev : Option Char) (l : List Char) : Option String := do
  let (q, l) ← oneC (fun c => c == '\x22' || c == '\x27') l
  let l ← lit "signature".toList l
  let l ← lit [q] l
  let l := ws l
  let l ← lit ",".toList l
  let l := ws l
  let (_, l) ← munch1 isSigChar l
  let _ ← lit "(".toList l
  pure (String.mk [q])

/-- Pattern 6: `\.sig\|\|(?P<sig>[a-zA-Z0-9$]+)\(`. -/
def matchP6 (_prev : Option Char) (l : List Char) : Option String := do
  let l ← lit ".sig||".toList l
  sigGroupParen l

/-- The part of pattern 7 after the lazy `.*?`:
`\s*[cs]\s*&&\s*[adf]\.set\([^,]+\s*,\s*(?:encodeURIComponent\s*\()?\s*(?P<sig>[a-zA-Z0-9$]+)\(`
(the optional group tries presence first, then absence). -/
def matchP7rest (l : List Char) : Option String := do
  let l := ws l
  let l ← one (fun c => c == 'c' || c == 's') l
  let l := ws l
  let l ← lit "&&".toList l
  let l := ws l
  let l ← one (fun c => c == 'a' || c == 'd' || c == 'f') l
  let l ← setCommaTail l
  match encodeURITail l with
  | some g => some g
  | none => sigGroupParen (ws l)

/-- Pattern 7:
`yt\.akamaized\.net/\)\s*\|\|\s*.*?\s*[cs]\s*&&\s*[adf]\.set\(...`. -/
def matchP7 (_prev : Option Char) (l : List Char) : Option String := do
  let l ← lit "yt.akamaized.net/)".toList l
  let l := ws l
  let l ← lit "||".toList l
  lazyDots matchP7rest (ws l)

/-- Pattern 8: `\b[cs]\s*&&\s*[adf]\.set\([^,]+\s*,\s*(?P<sig>[a-zA-Z0-9$]+)\(`. -/
def matchP8 (prev : Option Char) (l : List Char) : Option String :=
  if wbAt prev l then
    (do
      let l ← one (fun c => c == 'c' || c == 's') l
      let l := ws l
      let l ← lit "&&".toList l
      let l := ws l
      let l ← one (fun c => c == 'a' || c == 'd' || c == 'f') l
      let l ← setCommaTail l
      sigGroupParen l)
  else none

/-- Pattern 9:
`\b[a-zA-Z0-9]+\s*&&\s*[a-zA-Z0-9]+\.set\([^,]+\s*,\s*(?P<sig>[a-zA-Z0-9$]+)\(`. -/
def matchP9 (prev : Option Char) (l : List Char) : Option String :=
  if wbAt prev l then
    (do
      let (_, l) ← munch1 Char.isAlphanum l
      let l := ws l
      let l ← lit "&&".toList l
      let l := ws l
      let (_, l) ← munch1 Char.isAlphanum l
      let l ← setCommaTail l
      sigGroupParen l)
  else none

/-- Shared segment `\([^)]*\)\s*\(\s*(?P<sig>[a-zA-Z0-9$]+)\(` of
patterns 10-12. -/
def parenWrapTail (l : List Char) : Option String := do
  let l ← lit "(".toList l
  let l := munch0 (fun c => c != ')') l
  let l ← lit ")".toList l
  let l := ws l
  let l ← lit "(".toList l
  sigGroupParen (ws l)

/-- Pattern 10:
`\bc\s*&&\s*a\.set\([^,]+\s*,\s*\([^)]*\)\s*\(\s*(?P<sig>[a-zA-Z0-9$]+)\(`. -/
def matchP10 (prev : Option Char) (l : List Char) : Option String :=
  if wbAt prev l then
    (do
      let l ← lit "c".toList l
      let l := ws l
      let l ← lit "&&".toList l
      let l := ws l
      let l ← lit "a".toList l
      let l ← setCommaTail l
      parenWrapTail l)
  else none

/-- Patterns 11 and 12 (the source lists the same string twice):
`\bc\s*&&\s*[a-zA-Z0-9]+\.set\([^,]+\s*,\s*\([^)]*\)\s*\(\s*(?P<sig>[a-zA-Z0-9$]+)\(`. -/
def matchP11 (prev : Option Char) (l : List Char) : Option String :=
  if wbAt prev l then
    (do
      let l ← lit "c".toList l
      let l := ws l
      let l ← lit "&&".toList l
      let l := ws l
      let (_, l) ← munch1 Char.isAlphanum l
      let l ← setCommaTail l
      parenWrapTail l)
  else none

/-- The ordered `function_patterns` list of
`cipher.get_initial_function_name` (twelve entries; the last two are the
same pattern text). -/
def function_patterns : List (Option Char → List Char → Option String) :=
  [matchP1, matchP2, matchP3, matchP4, matchP5, matchP6, matchP7, matchP8,
   matchP9, matchP10, matchP11, matchP11]

/-- The `for pattern in function_patterns` loop: first pattern whose
`re.search` succeeds wins. -/
def firstPattern :
    List (Option Char → List Char → Option String) → List Char → Option String
  | [], _ => none
  | p :: rest, js =>
    match searchFrom p none js with
    | some v => some v
    | none => firstPattern rest js

/-- `cipher.get_initial_function_name(js)`: the loop over
`function_patterns`, raising `RegexMatchError(caller, "multiple")` when
every pattern fails. -/
def get_initial_function_name (js : String) : Except CipherErr String :=
  match firstPattern function_patterns js.toList with
  | some v => .ok v
  | none => .error (.regexMatch "get_initial_function_name" "multiple")

/-! ## The Cipher Engine's signature decryption -/

/-- Apply one resolved transform operation (the catalog's operations are
the three canonical functions above). -/
def applyTransform : TransformFn → List Char → Int → List Char
  | .reverse, l, b => reverse l b
  | .splice, l, b => splice l b
  | .swap, l, b => swap l b

/-- Modelled from the spec: the `Cipher` class is absent from the
sources — `extract.apply_signature` imports it from `tube.cipher` and
calls `cipher.get_signature(ciphered_signature=stream["s"])`, but no
definition exists under `src/`.  Per spec §4.5,
`decrypt_signature(ciphered_signature)` "applies the TransformPlan's
operations in order to the character sequence of the input, returning
the transformed sequence joined back into a string"; the TransformPlan
is the ordered list of (operation, numeric argument) pairs derived from
the script. -/
def get_signature (plan : List (TransformFn × Int)) (ciphered_signature : String) : String :=
  String.mk (plan.foldl (fun cs p => applyTransform p.1 cs p.2) ciphered_signature.toList)

/-! # Theorems -/

/-- C1: the Cipher Engine's signature decryption applies the
TransformPlan's operations to the character sequence of the ciphered
signature in plan order — the empty plan returns the input unchanged,
and a plan `p :: rest` first applies `p` to the character sequence and
then runs the remaining plan on the joined result — so the result is the
transformed sequence joined back into a string. -/
theorem c1_get_signature_in_order :
    (∀ s : String, get_signature [] s = s) ∧
    (∀ (p : TransformFn × Int) (rest : List (TransformFn × Int)) (s : String),
      get_signature (p :: rest) s =
        get_signature rest (String.mk (applyTransform p.1 s.toList p.2))) := by
  constructor
  · intro s
    cases s
    rfl
  · intro p rest s
    rfl

/-- C2 (counterexample): building the TransformCatalog from the exact
synthetic script `var X={AB:function(a){a.reverse()},CD:function(a,b){a.splice(0,b)}};`
(no space after the comma) yields a catalog containing only `AB`,
because `get_transform_object` splits entries on the two-character
separator `", "`; there is no `CD` entry, contradicting the claimed
`AB`→reverse, `CD`→splice catalog. -/
theorem c2_catalog_counterexample :
    get_transform_map
      "var X=\x7bAB:function(a)\x7ba.reverse()\x7d,CD:function(a,b)\x7ba.splice(0,b)\x7d\x7d;"
      "X" = .ok [("AB", TransformFn.reverse)] ∧
    ([("AB", TransformFn.reverse)] : List (String × TransformFn)).lookup "CD" = none := by
  exact ⟨by rfl, by rfl⟩

/-- C2 (amended): with a space after the comma — matching the `", "`
separator the code splits on — the synthetic script
`var X={AB:function(a){a.reverse()}, CD:function(a,b){a.splice(0,b)}};`
yields the catalog mapping `AB` to reverse and `CD` to splice. -/
theorem c2_catalog_amended :
    get_transform_map
      "var X=\x7bAB:function(a)\x7ba.reverse()\x7d, CD:function(a,b)\x7ba.splice(0,b)\x7d\x7d;"
      "X" = .ok [("AB", TransformFn.reverse), ("CD", TransformFn.splice)] := by
  rfl

/-- C3: at `swap([1, 2], 0)` the code returns `[1, 1, 2]` — element 0 is
duplicated and the length grows — although exchanging index 0 with index
`0 mod 2 = 0` should leave `[1, 2]` unchanged with the same length and
multiset, as the function's own documented JavaScript equivalent
(`var c=a[0];a[0]=a[b%a.length];a[b]=c`) does at `b = 0`. -/
theorem c3_swap_zero_duplicates :
    swap ([1, 2] : List Int) 0 = [1, 1, 2] ∧
    swap ([1, 2] : List Int) 0 ≠ [1, 2] ∧
    (swap ([1, 2] : List Int) 0).length ≠ ([1, 2] : List Int).length := by
  refine ⟨by decide, by decide, by decide⟩

/-- C4: on `a.C&&(b=a.get("n"))&&(b=Dx(b)` the throttling pattern
matches with captured name `Dx` and no bracketed index, yet the code
raises `RegexMatchError("get_throttling_function_name", "multiple")`
instead of returning `Dx`: the guard `len(function_match.groups()) == 1`
can never hold (the single pattern defines two groups), so the
direct-name return is dead code.  The bracketed-index path does behave
as described: with `Dx[0]` and the array literal `var Dx=[Ea,Fb];` the
trimmed element `Ea` at index 0 is returned. -/
theorem c4_throttling_name_dead_branch :
    searchList matchThrottleAt "a.C&&(b=a.get(\x22n\x22))&&(b=Dx(b)".toList =
      some ("Dx", none) ∧
    get_throttling_function_name "a.C&&(b=a.get(\x22n\x22))&&(b=Dx(b)" =
      .error (.regexMatch "get_throttling_function_name" "multiple") ∧
    get_throttling_function_name
      "a.C&&(b=a.get(\x22n\x22))&&(b=Dx[0](b);var Dx=[Ea,Fb];" = .ok "Ea" := by
  refine ⟨by decide, by rfl, by rfl⟩

/-- C5: object extraction on `'{"a":1,"b":[1,2,"x}y"]} trailing'` at
offset 0 returns exactly `'{"a":1,"b":[1,2,"x}y"]}'` — the brace and
bracket inside the quoted string do not change nesting depth — and
inside a `"` context a backslash advances the scan by exactly two
positions, skipping one following character. -/
theorem c5_object_extraction :
    find_object_from_startpoint "\x7b\x22a\x22:1,\x22b\x22:[1,2,\x22x\x7dy\x22]\x7d trailing" 0 =
      some "\x7b\x22a\x22:1,\x22b\x22:[1,2,\x22x\x7dy\x22]\x7d" ∧
    ∀ (rest stk : List Char) (i : Nat),
      findEnd ('\\' :: rest) ('\x22' :: stk) i = findEnd rest.tail ('\x22' :: stk) (i + 2) := by
  constructor
  · decide
  · intro rest stk i
    cases rest <;> rfl

/-- C10: the signature transforms `reverse`, `splice` and `swap` are pure
in their list argument — their bodies contain no assignment to `arr`, so
the state-passing post-state of the argument equals the input for every
list — whereas each of `throttling_unshift`, `throttling_reverse`,
`throttling_push` and `throttling_swap` writes its argument in place, as
witnessed by inputs whose post-state differs from the input. -/
theorem c10_transform_purity :
    (∀ (arr : List Int) (b : Int), reversePost arr b = arr) ∧
    (∀ (arr : List Int) (b : Int), splicePost arr b = arr) ∧
    (∀ (arr : List Int) (b : Int), swapPost arr b = arr) ∧
    throttling_unshift ([1, 2, 3] : List Int) 1 ≠ [1, 2, 3] ∧
    throttling_reverse ([1, 2] : List Int) ≠ [1, 2] ∧
    throttling_push ([1] : List Int) 2 ≠ [1] ∧
    throttling_swap ([1, 2] : List Int) 1 ≠ [1, 2] := by
  refine ⟨fun _ _ => rfl, fun _ _ => rfl, fun _ _ => rfl, ?_, ?_, ?_, ?_⟩
  · decide
  · decide
  · decide
  · decide

/-- The pattern loop returns the value of the first pattern in the list
whose search succeeds, given that all earlier searches fail. -/
theorem firstPattern_of_first :
    ∀ (L : List (Option Char → List Char → Option String)) (js : List Char)
      (i : Nat) (h : i < L.length) (v : String),
      (∀ j (hj : j < i), searchFrom (L.get ⟨j, hj.trans h⟩) none js = none) →
      searchFrom (L.get ⟨i, h⟩) none js = some v →
      firstPattern L js = some v := by
  intro L
  induction L with
  | nil =>
    intro js i h v
    exact absurd h (by simp)
  | cons p rest ih =>
    intro js i h v hprev hcur
    match i with
    | 0 =>
      simp only [List.get] at hcur
      simp [firstPattern, hcur]
    | i + 1 =>
      have h0 : searchFrom p none js = none := hprev 0 (Nat.succ_pos i)
      have hrest : i < rest.length := Nat.lt_of_succ_lt_succ h
      have := ih js i hrest v
        (fun j hj => hprev (j + 1) (Nat.succ_lt_succ hj))
        hcur
      simp [firstPattern, h0, this]

/-- The pattern loop exhausts the list exactly when every pattern's
search fails. -/
theorem firstPattern_none_iff :
    ∀ (L : List (Option Char → List Char → Option String)) (js : List Char),
      firstPattern L js = none ↔ ∀ p ∈ L, searchFrom p none js = none := by
  intro L
  induction L with
  | nil => intro js; simp [firstPattern]
  | cons p rest ih =>
    intro js
    constructor
    · intro hnone q hq
      rcases List.mem_cons.mp hq with rfl | hq'
      · cases hse : searchFrom q none js with
        | none => rfl
        | some v => simp [firstPattern, hse] at hnone
      · cases hse : searchFrom p none js with
        | none =>
          have : firstPattern rest js = none := by
            simpa [firstPattern, hse] using hnone
          exact (ih js).mp this q hq'
        | some v => simp [firstPattern, hse] at hnone
    · intro hall
      have hp : searchFrom p none js = none := hall p (List.mem_cons_self p rest)
      have : firstPattern rest js = none :=
        (ih js).mpr (fun q hq => hall q (List.mem_cons_of_mem p hq))
      simp [firstPattern, hp, this]

/-- C6: `get_initial_function_name` tries its patterns in the fixed
source order and returns the captured group of the first matching
pattern — whenever patterns before index `i` fail and pattern `i`
captures `v`, the result is `v` — even when a later pattern would also
match with a different capture, as on `$ab=function(a){a=a.split("")`
where pattern 3 (index 2) captures `ab` and wins although pattern 4
(index 3) would capture `$ab`; when no pattern matches it fails with
`RegexMatchError` carrying the caller identity and the `"multiple"`
indicator. -/
theorem c6_first_match_priority :
    (∀ (js : String) (i : Nat) (h : i < function_patterns.length) (v : String),
      (∀ j (hj : j < i),
        searchFrom (function_patterns.get ⟨j, hj.trans h⟩) none js.toList = none) →
      searchFrom (function_patterns.get ⟨i, h⟩) none js.toList = some v →
      get_initial_function_name js = .ok v) ∧
    (∀ js : String,
      (∀ p ∈ function_patterns, searchFrom p none js.toList = none) →
      get_initial_function_name js =
        .error (.regexMatch "get_initial_function_name" "multiple")) ∧
    get_initial_function_name "$ab=function(a)\x7ba=a.split(\x22\x22)" = .ok "ab" ∧
    searchFrom matchP4 none "$ab=function(a)\x7ba=a.split(\x22\x22)".toList =
      some "$ab" := by
  refine ⟨?_, ?_, by rfl, by decide⟩
  · intro js i h v hprev hcur
    have h2 : firstPattern function_patterns js.data = some v :=
      firstPattern_of_first function_patterns js.toList i h v hprev hcur
    simp [get_initial_function_name, h2]
  · intro js hall
    have h2 : firstPattern function_patterns js.data = none :=
      (firstPattern_none_iff function_patterns js.toList).mpr hall
    simp [get_initial_function_name, h2]

/-- Witness for C6: the first-match part applied at the demonstration
script (patterns 0 and 1 fail, pattern 2 captures `ab`), and the
exhaustion part applied at a script no pattern matches. -/
theorem c6_first_match_priority_witness :
    get_initial_function_name "$ab=function(a)\x7ba=a.split(\x22\x22)" = .ok "ab" ∧
    get_initial_function_name "xyz" =
      .error (.regexMatch "get_initial_function_name" "multiple") := by
  constructor
  · refine c6_first_match_priority.1 "$ab=function(a)\x7ba=a.split(\x22\x22)" 2
      (by decide) "ab" ?_ ?_
    · intro j hj
      interval_cases j
      · show searchFrom matchP1 none "$ab=function(a)\x7ba=a.split(\x22\x22)".toList = none
        decide
      · show searchFrom matchP2 none "$ab=function(a)\x7ba=a.split(\x22\x22)".toList = none
        decide
    · show searchFrom matchP3 none "$ab=function(a)\x7ba=a.split(\x22\x22)".toList = some "ab"
      decide
  · exact c6_first_match_priority.2.1 "xyz" (by decide)

/-- The loop breaks immediately on an empty stack. -/
theorem findEnd_stack_nil (l : List Char) (i : Nat) : findEnd l [] i = i := by
  cases l <;> rfl

/-- The scan index never decreases (auxiliary, by strong induction on
the remaining length). -/
theorem findEnd_ge_aux :
    ∀ (n : Nat) (l stk : List Char) (i : Nat), l.length ≤ n → i ≤ findEnd l stk i := by
  intro n
  induction n with
  | zero =>
    intro l stk i hl
    have hnil : l = [] := List.eq_nil_of_length_eq_zero (Nat.le_zero.mp hl)
    subst hnil
    cases stk with
    | nil => exact le_of_eq (findEnd_stack_nil [] i).symm
    | cons top stk => exact le_rfl
  | succ n ih =>
    intro l stk i hl
    cases stk with
    | nil => exact le_of_eq (findEnd_stack_nil l i).symm
    | cons top stk =>
      cases l with
      | nil => exact le_rfl
      | cons c rest =>
        have hr : rest.length ≤ n := by
          simp only [List.length_cons] at hl
          omega
        cases rest with
        | nil =>
          rw [findEnd.eq_3]
          split_ifs with h1 h2 h3 h4
          · exact le_trans (Nat.le_succ i) (ih [] stk (i + 1) hr)
          · omega
          · exact le_trans (Nat.le_succ i) (ih [] (top :: stk) (i + 1) hr)
          · exact le_trans (Nat.le_succ i) (ih [] (c :: top :: stk) (i + 1) hr)
          · exact le_trans (Nat.le_succ i) (ih [] (top :: stk) (i + 1) hr)
        | cons d rest2 =>
          have hr2 : rest2.length ≤ n := by
            simp only [List.length_cons] at hr
            omega
          rw [findEnd.eq_4]
          split_ifs with h1 h2 h3 h4
          · exact le_trans (Nat.le_succ i) (ih (d :: rest2) stk (i + 1) hr)
          · have := ih rest2 (top :: stk) (i + 2) hr2
            omega
          · exact le_trans (Nat.le_succ i) (ih (d :: rest2) (top :: stk) (i + 1) hr)
          · exact le_trans (Nat.le_succ i) (ih (d :: rest2) (c :: top :: stk) (i + 1) hr)
          · exact le_trans (Nat.le_succ i) (ih (d :: rest2) (top :: stk) (i + 1) hr)

/-- The scan index never decreases. -/
theorem findEnd_ge (l stk : List Char) (i : Nat) : i ≤ findEnd l stk i :=
  findEnd_ge_aux l.length l stk i le_rfl

/-- When the stack never empties, the scan consumes the whole remaining
text (auxiliary, by strong induction on the remaining length). -/
theorem findEnd_full_aux :
    ∀ (n : Nat) (l stk : List Char) (i : Nat), l.length ≤ n →
      neverRebalances l stk = true → i + l.length ≤ findEnd l stk i := by
  intro n
  induction n with
  | zero =>
    intro l stk i hl hnr
    have hnil : l = [] := List.eq_nil_of_length_eq_zero (Nat.le_zero.mp hl)
    subst hnil
    cases stk with
    | nil =>
      rw [neverRebalances.eq_1] at hnr
      exact Bool.noConfusion hnr
    | cons top stk => exact Nat.le_of_eq rfl
  | succ n ih =>
    intro l stk i hl hnr
    cases stk with
    | nil =>
      rw [neverRebalances.eq_1] at hnr
      exact Bool.noConfusion hnr
    | cons top stk =>
      cases l with
      | nil => exact Nat.le_of_eq rfl
      | cons c rest =>
        have hr : rest.length ≤ n := by
          simp only [List.length_cons] at hl
          omega
        cases rest with
        | nil =>
          rw [findEnd.eq_3]
          rw [neverRebalances.eq_3] at hnr
          split_ifs at hnr ⊢ with h1 h2 h3 h4
          · have := ih [] stk (i + 1) hr hnr
            simp only [List.length_cons, List.length_nil] at this ⊢
            omega
          · simp only [List.length_cons, List.length_nil]
            omega
          · have := ih [] (top :: stk) (i + 1) hr hnr
            simp only [List.length_cons, List.length_nil] at this ⊢
            omega
          · have := ih [] (c :: top :: stk) (i + 1) hr hnr
            simp only [List.length_cons, List.length_nil] at this ⊢
            omega
          · have := ih [] (top :: stk) (i + 1) hr hnr
            simp only [List.length_cons, List.length_nil] at this ⊢
            omega
        | cons d rest2 =>
          have hr2 : rest2.length ≤ n := by
            simp only [List.length_cons] at hr
            omega
          rw [findEnd.eq_4]
          rw [neverRebalances.eq_4] at hnr
          split_ifs at hnr ⊢ with h1 h2 h3 h4
          · have := ih (d :: rest2) stk (i + 1) hr hnr
            simp only [List.length_cons] at this ⊢
            omega
          · have := ih rest2 (top :: stk) (i + 2) hr2 hnr
            simp only [List.length_cons] at this ⊢
            omega
          · have := ih (d :: rest2) (top :: stk) (i + 1) hr hnr
            simp only [List.length_cons] at this ⊢
            omega
          · have := ih (d :: rest2) (c :: top :: stk) (i + 1) hr hnr
            simp only [List.length_cons] at this ⊢
            omega
          · have := ih (d :: rest2) (top :: stk) (i + 1) hr hnr
            simp only [List.length_cons] at this ⊢
            omega

/-- C9: for every text and every in-range start offset, the extractor
terminates with: an error (`none`) exactly when the character at the
offset is neither `{` nor `[`; on an opener it returns `some` prefix of
`text[start:]` beginning with that opening character; and when the
nesting never rebalances before the end of the text it returns the
entire remainder instead of raising. -/
theorem c9_find_object_safety (html : String) (start : Nat)
    (hs : start < html.toList.length) :
    (find_object_from_startpoint html start = none ↔
      ∀ c ∈ (html.toList.drop start).head?, ¬(c = '\x7b' ∨ c = '[')) ∧
    (∀ c, (html.toList.drop start).head? = some c → (c = '\x7b' ∨ c = '[') →
      ∃ r : String, find_object_from_startpoint html start = some r ∧
        (∃ t, r.toList ++ t = html.toList.drop start) ∧
        r.toList.head? = some c) ∧
    (∀ c, (html.toList.drop start).head? = some c → (c = '\x7b' ∨ c = '[') →
      neverRebalances (html.toList.drop start).tail [c] = true →
      find_object_from_startpoint html start =
        some (String.mk (html.toList.drop start))) := by
  have hne : html.toList.drop start ≠ [] := by
    intro hcontra
    have := List.drop_eq_nil_iff.mp hcontra
    omega
  rcases hd : html.toList.drop start with _ | ⟨c, rest⟩
  · exact absurd hd hne
  have hd2 : List.drop start html.data = c :: rest := hd
  have hmain : find_object_from_startpoint html start =
      (if c = '\x7b' ∨ c = '[' then
        some (String.mk ((c :: rest).take (findEnd rest [c] 1))) else none) := by
    simp [find_object_from_startpoint, hd2]
  refine ⟨?_, ?_, ?_⟩
  · constructor
    · intro hnone c' hc'
      simp only [List.head?] at hc'
      cases hc'
      intro hop
      rw [hmain, if_pos hop] at hnone
      exact Option.noConfusion hnone
    · intro hnoop
      have hc : ¬(c = '\x7b' ∨ c = '[') := hnoop c rfl
      rw [hmain]
      exact if_neg hc
  · intro c' hc' hop
    simp only [List.head?] at hc'
    cases hc'
    refine ⟨String.mk ((c :: rest).take (findEnd rest [c] 1)), ?_, ?_, ?_⟩
    · rw [hmain, if_pos hop]
    · exact ⟨(c :: rest).drop (findEnd rest [c] 1), List.take_append_drop _ _⟩
    · have h1 : 1 ≤ findEnd rest [c] 1 := findEnd_ge rest [c] 1
      rcases Nat.exists_eq_add_of_le h1 with ⟨k, hk⟩
      show ((c :: rest).take (findEnd rest [c] 1)).head? = some c
      rw [hk, Nat.add_comm 1 k]
      simp
  · intro c' hc' hop hnr
    simp only [List.head?] at hc'
    cases hc'
    simp only [List.tail_cons] at hnr
    have hfull : 1 + rest.length ≤ findEnd rest [c] 1 :=
      findEnd_full_aux rest.length rest [c] 1 le_rfl hnr
    have htake : (c :: rest).take (findEnd rest [c] 1) = c :: rest := by
      apply List.take_of_length_le
      simp only [List.length_cons]
      omega
    rw [hmain, htake, if_pos hop]

/-- Witness for C9: the theorem applied at text `"[ab"` and offset 0,
whose nesting never rebalances, so the whole remainder is returned. -/
theorem c9_find_object_safety_witness :
    find_object_from_startpoint "[ab" 0 = some "[ab" := by
  have h := (c9_find_object_safety "[ab" 0 (by decide)).2.2 '['
    (by decide) (by decide) (by decide)
  exact h

/-- `swap` on a non-empty list with remainder `r = j + 1` produces the
head-exchanged list `[arr[r]] ++ arr[1:r] ++ [arr[0]] ++ arr[r+1:]`. -/
theorem swap_cons_eq {α : Type} (a0 : α) (t : List α) (b : Int) (j : Nat)
    (hj : j < t.length) (hr : (b % (((a0 :: t).length : Nat) : Int)).toNat = j + 1) :
    swap (a0 :: t) b = t.get ⟨j, hj⟩ :: (t.take j ++ a0 :: t.drop (j + 1)) := by
  simp only [swap, hr]
  rw [List.drop_succ_cons, List.drop_eq_getElem_cons hj]
  simp [List.drop_succ_cons, List.take_succ_cons, Nat.add_sub_cancel]
  rw [List.drop_eq_getElem_cons hj]
  rfl

/-- C7: for every non-empty list and every integer `b` with
`b mod len(a) ≠ 0`, applying `swap` twice with the same `b` restores the
original list. -/
theorem c7_swap_self_inverse {α : Type} (arr : List α) (b : Int)
    (h1 : arr ≠ []) (h2 : b % ((arr.length : Nat) : Int) ≠ 0) :
    swap (swap arr b) b = arr := by
  rcases arr with _ | ⟨a0, t⟩
  · exact absurd rfl h1
  have hlen : ((a0 :: t).length : Int) = (t.length : Int) + 1 := by
    simp only [List.length_cons]
    push_cast
    ring
  have hpos : (0 : Int) < ((a0 :: t).length : Int) := by
    rw [hlen]
    omega
  have hge : 0 ≤ b % ((a0 :: t).length : Int) :=
    Int.emod_nonneg b (by omega)
  have hlt : b % ((a0 :: t).length : Int) < ((a0 :: t).length : Int) :=
    Int.emod_lt_of_pos b hpos
  set r := (b % ((a0 :: t).length : Int)).toNat with hrdef
  have hr0 : r ≠ 0 := by
    intro hzero
    apply h2
    omega
  have hrlt : r < (a0 :: t).length := by
    simp only [hrdef]
    omega
  rcases Nat.exists_eq_add_of_lt (Nat.pos_of_ne_zero hr0) with ⟨j, hj0⟩
  have hj0' : r = j + 1 := by omega
  have hjt : j < t.length := by
    simp only [List.length_cons] at hrlt
    omega
  have hstep1 : swap (a0 :: t) b = t.get ⟨j, hjt⟩ :: (t.take j ++ a0 :: t.drop (j + 1)) :=
    swap_cons_eq a0 t b j hjt (by rw [← hrdef, hj0'])
  set v := t.get ⟨j, hjt⟩ with hv
  set t2 := t.take j ++ a0 :: t.drop (j + 1) with ht2
  have ht2len : t2.length = t.length := by
    simp only [ht2, List.length_append, List.length_take, List.length_cons,
      List.length_drop]
    omega
  have hlen2 : (v :: t2).length = (a0 :: t).length := by
    simp only [List.length_cons, ht2len]
  have hjt2 : j < t2.length := by
    rw [ht2len]
    exact hjt
  have hstep2 : swap (v :: t2) b = t2.get ⟨j, hjt2⟩ :: (t2.take j ++ v :: t2.drop (j + 1)) := by
    apply swap_cons_eq
    rw [show (((v :: t2).length : Nat) : Int) = (((a0 :: t).length : Nat) : Int) by
      exact_mod_cast congrArg Nat.cast hlen2]
    rw [← hrdef, hj0']
  have htakelen : (t.take j).length = j := by
    simp only [List.length_take]
    omega
  have hget2 : t2.get ⟨j, hjt2⟩ = a0 := by
    simp only [ht2, List.get_eq_getElem]
    rw [List.getElem_append_right (by omega)]
    simp [htakelen]
  have htake2 : t2.take j = t.take j := by
    rw [ht2]
    exact List.take_left' htakelen
  have hdrop2 : t2.drop (j + 1) = t.drop (j + 1) := by
    rw [ht2, show j + 1 = (t.take j).length + 1 by rw [htakelen]]
    rw [List.drop_append 1]
    simp
  rw [hstep1, hstep2, hget2, htake2, hdrop2]
  have hfinal : t.take j ++ v :: t.drop (j + 1) = t := by
    rw [hv, List.get_eq_getElem, ← List.drop_eq_getElem_cons hjt]
    exact List.take_append_drop j t
  rw [hfinal]

/-- Witness for C7: the theorem applied at `[1, 2, 3]` and `b = 2`. -/
theorem c7_swap_self_inverse_witness :
    ([1, 2, 3] : List Int) ≠ [] ∧
    (2 : Int) % ((([1, 2, 3] : List Int).length : Nat) : Int) ≠ 0 ∧
    swap (swap ([1, 2, 3] : List Int) 2) 2 = [1, 2, 3] :=
  ⟨by decide, by decide, c7_swap_self_inverse [1, 2, 3] 2 (by decide) (by decide)⟩

/-- The specification recursion preserves length. -/
theorem subCipherSpec_length :
    ∀ (l ks : List Char) (m : Nat), (subCipherSpec l ks m).length = l.length := by
  intro l
  induction l with
  | nil => intro ks m; rfl
  | cons c rest ih =>
    intro ks m
    simp only [subCipherSpec, List.length_cons]
    rw [ih]

/-- The source loop (iterating the copy while writing `d[m]`, with the
running key stream `this` and counter `f = 96 - m`) refines the
specification recursion: the written prefix is carried along. -/
theorem cipherLoop_spec :
    ∀ (copied : List Char) (m : Nat) (ks : List Char) (d : List Char),
      d.drop m = copied →
      cipherLoop copied m ks (96 - (m : Int)) d = d.take m ++ subCipherSpec copied ks m := by
  have hlen : (alphabet_h.length : Int) = 64 := by
    have h64 : alphabet_h.length = 64 := by decide
    rw [h64]
    rfl
  intro copied
  induction copied with
  | nil =>
    intro m ks d hdrop
    have hle : d.length ≤ m := List.drop_eq_nil_iff.mp hdrop
    simp only [cipherLoop, subCipherSpec, List.append_nil]
    exact (List.take_of_length_le hle).symm
  | cons l rest ih =>
    intro m ks d hdrop
    have hm : m < d.length := by
      by_contra hcon
      rw [List.drop_eq_nil_of_le (by omega)] at hdrop
      exact List.noConfusion hdrop
    simp only [cipherLoop, subCipherSpec, hlen]
    set c := alphabet_h.getD
      ((((alphabet_h.indexOf l : Int) - (alphabet_h.indexOf (ks.getD m 'A') : Int)
          + (m : Int) - 32 + (96 - (m : Int))) % 64)).toNat 'A' with hc
    have hset : d.set m c = d.take m ++ c :: d.drop (m + 1) := by
      rw [List.set_eq_take_append_cons_drop]
      exact if_pos hm
    have htakelen : (d.take m).length = m := by
      simp only [List.length_take]
      omega
    have hdrop1 : (d.set m c).drop (m + 1) = rest := by
      rw [hset, show m + 1 = (d.take m).length + 1 by rw [htakelen]]
      rw [List.drop_append 1, List.drop_one, List.tail_cons, ← List.tail_drop, htakelen,
        hdrop, List.tail_cons]
    have htake1 : (d.set m c).take (m + 1) = d.take m ++ [c] := by
      rw [hset, List.take_append_eq_append_take]
      rw [List.take_of_length_le (by omega), htakelen]
      simp
    have hcast : (96 : Int) - (m : Int) - 1 = 96 - ((m + 1 : Nat) : Int) := by
      push_cast
      ring
    rw [hcast, ih (m + 1) (ks ++ [c]) (d.set m c) hdrop1, htake1]
    simp [List.append_assoc]

/-- C8: for inputs over the 64-symbol alphabet and a non-empty key, the
substitution-cipher step rewrites position `m` holding `l` to
`H[(index_of(H,l) - index_of(H,this[m]) + m - 32 + f) mod 64]` with
`f = 96 - m` and the key stream starting as the key and extended by each
output symbol (so positions `m ≥ len(e)` reference earlier outputs), and
the list keeps its length. -/
theorem c8_substitution_cipher (d : List Char) (e : String)
    (_he : e.toList ≠ []) (_hd : ∀ c ∈ d, c ∈ alphabet_h)
    (_hke : ∀ c ∈ e.toList, c ∈ alphabet_h) :
    throttling_cipher_function d e = subCipherSpec d e.toList 0 ∧
    (throttling_cipher_function d e).length = d.length := by
  have h0 : throttling_cipher_function d e = subCipherSpec d e.toList 0 := by
    have h := cipherLoop_spec d 0 e.toList d (by simp)
    simpa [throttling_cipher_function] using h
  refine ⟨h0, ?_⟩
  rw [h0, subCipherSpec_length]

/-- Witness for C8: the theorem applied at `d = ['a', 'b']`, `e = "C"`. -/
theorem c8_substitution_cipher_witness :
    "C".toList ≠ [] ∧ (∀ c ∈ ['a', 'b'], c ∈ alphabet_h) ∧
    (∀ c ∈ "C".toList, c ∈ alphabet_h) ∧
    throttling_cipher_function ['a', 'b'] "C" = subCipherSpec ['a', 'b'] "C".toList 0 ∧
    (throttling_cipher_function ['a', 'b'] "C").length = (['a', 'b'] : List Char).length :=
  ⟨by decide, by decide, by decide,
    (c8_substitution_cipher ['a', 'b'] "C" (by decide) (by decide) (by decide)).1,
    (c8_substitution_cipher ['a', 'b'] "C" (by decide) (by decide) (by decide)).2⟩

end Tube
